import Mathlib

/-!
Verification of the pure-cinema frame processing and timing engine.

The definitions below are shallow embeddings of the TypeScript/JavaScript
source of the repository:
  * the `Recording` / `RecordingFrame` data model (src/terminalRecorder.ts),
  * the capture post-processor `processRecordingForPlayback`
    (src/terminalRecorder.ts),
  * the timeline editor `applyEdits` (src/recordingEditor.ts),
  * the dead-time compressor `removeDeadTime` and the playback loop of the
    player webview (src/recordingPlayer.ts).
JavaScript numbers that are always integral in the engine (millisecond
timestamps, dimensions) are embedded as `Int`; a possibly-NaN number is
embedded as `Option Int` with `none` for NaN.
-/

namespace PureCinema

/-- Frame kind, from the TypeScript union `type: 'output' | 'input'`
(src/terminalRecorder.ts, interface RecordingFrame). -/
inductive FrameType where
  | output
  | input
deriving DecidableEq, Repr

/-- One recorded event, from `interface RecordingFrame` (src/terminalRecorder.ts):
`timestamp` in milliseconds from session start, opaque text `content`, and a kind. -/
structure RecordingFrame where
  timestamp : Int
  content : String
  type : FrameType
deriving DecidableEq, Repr

/-- Terminal metadata, from the `terminalInfo` field of `interface Recording`
(src/terminalRecorder.ts); all three fields are optional strings. -/
structure TerminalInfo where
  name : Option String
  cwd : Option String
  shellPath : Option String
deriving DecidableEq, Repr

/-- Character-grid size, from the `dimensions` field of `interface Recording`. -/
structure Dimensions where
  width : Int
  height : Int
deriving DecidableEq, Repr

/-- A full recording, from `interface Recording` (src/terminalRecorder.ts):
`version` string, wall-clock `startTime`, optional `endTime`, the ordered frame
list, terminal metadata and optional dimensions. -/
structure Recording where
  version : String
  startTime : Int
  endTime : Option Int
  frames : List RecordingFrame
  terminalInfo : TerminalInfo
  dimensions : Option Dimensions
deriving DecidableEq, Repr

/-- ECMAScript `parseInt` restricted to decimal notation, as applied by
`applyEdits` to the width/height edit strings (src/recordingEditor.ts:119-120):
leading whitespace is skipped, an optional sign is read, then a maximal prefix
of decimal digits; `none` models the NaN result when no digit is found.
(The hexadecimal `0x` prefix of full `parseInt` is outside the inputs the
editor produces and is not modelled.) -/
def jsParseInt (s : String) : Option Int :=
  let cs := s.toList.dropWhile (fun c => c = ' ' ∨ c = '\t' ∨ c = '\n' ∨ c = '\r')
  let signAndRest : Int × List Char :=
    match cs with
    | '-' :: r => (-1, r)
    | '+' :: r => (1, r)
    | _ => (1, cs)
  let ds := signAndRest.2.takeWhile Char.isDigit
  if ds.isEmpty then none
  else some (signAndRest.1 * ((ds.foldl (fun n c => n * 10 + (c.toNat - 48)) 0 : Nat) : Int))

/-- JavaScript `x || d` applied to a number-or-NaN value (`none` = NaN):
the falsy values NaN and `0` select the default `d`
(src/recordingEditor.ts:119-120 and 126-127). -/
def jsOr (x : Option Int) (d : Int) : Int :=
  match x with
  | none => d
  | some v => if v = 0 then d else v

/-- JavaScript truthiness of a number-or-undefined value, as used by
`if (recording.endTime)` (src/recordingEditor.ts:143): `undefined` and `0` are falsy. -/
def jsTruthy (x : Option Int) : Bool :=
  match x with
  | none => false
  | some v => v ≠ 0

/-- `Number.MAX_SAFE_INTEGER`, the default trim end bound (src/recordingEditor.ts:127). -/
def maxSafeInteger : Int := 9007199254740991

/-- Width/height of a resize request as the editor webview posts them:
raw strings read from the two input elements (src/recordingEditor.ts:329-331). -/
structure DimensionEdit where
  width : String
  height : String
deriving DecidableEq, Repr

/-- Start/end of a trim request in milliseconds as the editor webview posts
them: JavaScript numbers, possibly NaN (`none`) when the input box is empty
(src/recordingEditor.ts:333-335). -/
structure TimelineEdit where
  startTime : Option Int
  endTime : Option Int
deriving DecidableEq, Repr

/-- An edit request; each part is optional, matching the truthiness tests
`if (edits.dimensions)` and `if (edits.timeline)` (src/recordingEditor.ts:117,125). -/
structure Edits where
  dimensions : Option DimensionEdit
  timeline : Option TimelineEdit
deriving DecidableEq, Repr

/-- The trim frame filter of `applyEdits` (src/recordingEditor.ts:130-132):
keep the frames whose timestamp lies in `[startTrim, endTrim]`. -/
def trimFilter (startTrim endTrim : Int) (frames : List RecordingFrame) : List RecordingFrame :=
  frames.filter (fun frame => decide (startTrim ≤ frame.timestamp ∧ frame.timestamp ≤ endTrim))

/-- The timestamp re-basing loop of `applyEdits` (src/recordingEditor.ts:136-139):
subtract `firstFrameTime` from every timestamp. -/
def rebase (firstFrameTime : Int) (frames : List RecordingFrame) : List RecordingFrame :=
  frames.map (fun frame => { frame with timestamp := frame.timestamp - firstFrameTime })

/-- The `applyEdits` method of `RecordingEditor` (src/recordingEditor.ts:113-150).

The first component of the result is the returned `editedRecording`.  The
second component is the state of the caller's `recording` argument after the
call: `applyEdits` first deep-clones the input (`JSON.parse(JSON.stringify(...))`),
but the timeline branch then assigns `editedRecording.frames =
recording.frames.filter(...)` — an array of references to the *caller's* frame
objects — and re-bases by mutating `frame.timestamp` on those shared objects,
so the in-range frames of the input are mutated in place whenever the trim
retains at least one frame. -/
def applyEdits (recording : Recording) (edits : Edits) : Recording × Recording :=
  let afterDims : Recording :=
    match edits.dimensions with
    | some d =>
        { recording with
            dimensions := some ⟨jsOr (jsParseInt d.width) 80, jsOr (jsParseInt d.height) 24⟩ }
    | none => recording
  match edits.timeline with
  | none => (afterDims, recording)
  | some t =>
    let startTrim := jsOr t.startTime 0
    let endTrim := jsOr t.endTime maxSafeInteger
    let kept := trimFilter startTrim endTrim recording.frames
    match kept with
    | [] => ({ afterDims with frames := [] }, recording)
    | f0 :: rest =>
      let firstFrameTime := f0.timestamp
      let newEndTime : Option Int :=
        match recording.endTime with
        | some e =>
            if e ≠ 0 then some (min e (recording.startTime + endTrim)) else some e
        | none => none
      ({ afterDims with
           frames := rebase firstFrameTime (f0 :: rest),
           startTime := recording.startTime + startTrim,
           endTime := newEndTime },
       { recording with
           frames := recording.frames.map (fun frame =>
             if startTrim ≤ frame.timestamp ∧ frame.timestamp ≤ endTrim then
               { frame with timestamp := frame.timestamp - firstFrameTime }
             else frame) })

/-- Load-time error taxonomy of the specification (§7); the source never
constructs either value. -/
inductive LoadError where
  | incompatibleFormat
  | malformedDocument
deriving DecidableEq, Repr

/-- The post-parse stage of `RecordingPlayer.playRecording`
(src/recordingPlayer.ts:16-25): once `JSON.parse` has produced a `Recording`,
it is handed to `showRecordingViewer` unconditionally — no field of the parsed
document, in particular not `version`, is inspected before use. -/
def playRecordingLoad (parsed : Recording) : Except LoadError Recording :=
  Except.ok parsed

/-- The post-parse stage of `RecordingEditor.editRecording`
(src/recordingEditor.ts:10-19): the parsed `Recording` flows straight into
`showRecordingEditor`, with no version gate. -/
def editRecordingLoad (parsed : Recording) : Except LoadError Recording :=
  Except.ok parsed

/-- The backward splice loop of `processRecordingForPlayback`
(src/terminalRecorder.ts:432-437) scans `processedFrames` from the end and
removes the last frame of kind input; scanning the reversed list forward,
this helper drops the first input frame it meets. -/
def dropFirstInput : List RecordingFrame → List RecordingFrame
  | [] => []
  | f :: rest => if f.type = FrameType.input then rest else f :: dropFirstInput rest

/-- Removal of the most recent input frame, as performed by the splice loop of
`processRecordingForPlayback` (src/terminalRecorder.ts:432-437). -/
def removeLastInputFrame (l : List RecordingFrame) : List RecordingFrame :=
  (dropFirstInput l.reverse).reverse

/-- One iteration of the frame walk of `processRecordingForPlayback`
(src/terminalRecorder.ts:425-448).  The accumulator is the pair
`(processedFrames, inputBuffer)`; `inputBuffer.pop()` removes the last element
and `push` appends at the end. -/
def processStep (acc : List RecordingFrame × List String) (frame : RecordingFrame) :
    List RecordingFrame × List String :=
  if frame.type = FrameType.input then
    if frame.content = "[BACKSPACE]" then
      if acc.2 = [] then acc
      else (removeLastInputFrame acc.1, acc.2.dropLast)
    else (acc.1 ++ [frame], acc.2 ++ [frame.content])
  else (acc.1 ++ [frame], acc.2)

/-- `TerminalRecorder.processRecordingForPlayback` (src/terminalRecorder.ts:421-454):
walk the raw frames in capture order with an empty `processedFrames` list and
`inputBuffer`, and return the recording with the processed frame list. -/
def processRecordingForPlayback (recording : Recording) : Recording :=
  { recording with frames := (recording.frames.foldl processStep ([], [])).1 }

/-- `DEAD_TIME_THRESHOLD` (src/recordingPlayer.ts:606): 3 seconds of inactivity. -/
def deadTimeThreshold : Int := 3000

/-- `MAX_PAUSE_DURATION` (src/recordingPlayer.ts:607): long pauses compress to 1 second. -/
def maxPauseDuration : Int := 1000

/-- The indexed loop of `removeDeadTime` (src/recordingPlayer.ts:611-631),
written as recursion over the frame list: emit the head shifted by the running
`cumulativeTimeReduction`, and when the gap to the next frame exceeds the
threshold, grow the reduction by `gap - MAX_PAUSE_DURATION`. -/
def removeDeadTimeGo : List RecordingFrame → Int → List RecordingFrame
  | [], _ => []
  | [f], red => [{ f with timestamp := f.timestamp - red }]
  | f :: g :: rest, red =>
    { f with timestamp := f.timestamp - red } ::
      removeDeadTimeGo (g :: rest)
        (if g.timestamp - f.timestamp > deadTimeThreshold then
          red + (g.timestamp - f.timestamp - maxPauseDuration)
        else red)

/-- `removeDeadTime` (src/recordingPlayer.ts:600-634): frame lists of length at
most one are returned unchanged, otherwise the loop runs with reduction `0`. -/
def removeDeadTime (frames : List RecordingFrame) : List RecordingFrame :=
  if frames.length ≤ 1 then frames else removeDeadTimeGo frames 0

/-- The per-gap compression amount the dead-time loop accumulates: `gap -
MAX_PAUSE_DURATION` when the gap exceeds the threshold, else nothing. -/
def gapPenalty (gap : Int) : Int :=
  if gap > deadTimeThreshold then gap - maxPauseDuration else 0

/-- Cumulative reduction applied to frame `i`: the sum of the penalties of the
adjacent gaps strictly before `i`. -/
def cumReduction (frames : List RecordingFrame) (i : Nat) : Int :=
  (((frames.zip frames.tail).take i).map
    (fun p => gapPenalty (p.2.timestamp - p.1.timestamp))).sum

/-- The floor of the inter-frame delay (the literal `50` of
src/recordingPlayer.ts:679). -/
def minimumDelay : Int := 50

/-- `let playbackSpeed = 1.0` (src/recordingPlayer.ts:584); the player declares
this rate multiplier and leaves it at 1. -/
def playbackSpeed : Int := 1

/-- The delay the `playRecording` webview loop computes between frame `i` and
frame `i+1`: `Math.max(50, nextFrame.timestamp - frame.timestamp)`
(src/recordingPlayer.ts:677-679); `none` when frame `i` has no successor. -/
def frameDelay (frames : List RecordingFrame) (i : Nat) : Option Int :=
  match frames[i]?, frames[i + 1]? with
  | some f, some g => some (max 50 (g.timestamp - f.timestamp))
  | _, _ => none

/-- The webview player state: the flags and accumulator of
src/recordingPlayer.ts:582-598 that the emission loop touches. -/
structure PlayerState where
  isPlaying : Bool
  currentFrame : Nat
  outputContent : String
deriving DecidableEq, Repr

/-- The state after the reset handler (src/recordingPlayer.ts:706-713):
cursor at 0, empty accumulator. -/
def resetState : PlayerState := ⟨false, 0, ""⟩

/-- The synchronous body of one `playRecording` call (src/recordingPlayer.ts:661-675):
past the end the loop stops; otherwise the current frame's content is appended
to `outputContent` when its kind is output or input, and the cursor advances. -/
def playRecordingStep (frames : List RecordingFrame) (st : PlayerState) : PlayerState :=
  match frames[st.currentFrame]? with
  | none => { st with isPlaying := false }
  | some frame =>
    { st with
        outputContent :=
          if frame.type = FrameType.output ∨ frame.type = FrameType.input then
            st.outputContent ++ frame.content
          else st.outputContent,
        currentFrame := st.currentFrame + 1 }

/-- `n` emissions of the play loop starting from the reset state. -/
def runPlay (frames : List RecordingFrame) : Nat → PlayerState
  | 0 => resetState
  | n + 1 => playRecordingStep frames (runPlay frames n)

/-- The accumulator rebuild of the progress-bar click handler
(src/recordingPlayer.ts:750-759): `outputContent` is recomputed from scratch by
concatenating the content of every output/input frame before the target index. -/
def rebuildOutputUpTo (frames : List RecordingFrame) (n : Nat) : String :=
  (frames.take n).foldl
    (fun acc frame =>
      if frame.type = FrameType.output ∨ frame.type = FrameType.input then
        acc ++ frame.content
      else acc) ""

/-- Concatenation, in order, of the content fields of a frame list. -/
def joinContents : List RecordingFrame → String
  | [] => ""
  | f :: rest => f.content ++ joinContents rest

/-- A trim-only edit request, the shape the claims about trimming quantify over. -/
def trimEdit (s e : Option Int) : Edits := ⟨none, some ⟨s, e⟩⟩

/-- Sample empty recording used as a concrete input. -/
def plainRecording : Recording :=
  ⟨"1.0", 0, none, [], ⟨none, none, none⟩, none⟩

/-- Sample parsed document with major version 2. -/
def versionTwoRecording : Recording :=
  ⟨"2.0", 0, none, [], ⟨none, none, none⟩, none⟩

lemma jsOr_self (a : Int) : jsOr (some a) 0 = a := by
  by_cases h : a = 0 <;> simp [jsOr, h]

lemma jsOr_of_ne {b : Int} (d : Int) (hb : b ≠ 0) : jsOr (some b) d = b := by
  simp [jsOr, hb]

lemma rebase_zero (l : List RecordingFrame) : rebase 0 l = l := by
  unfold rebase
  have h : ∀ f : RecordingFrame,
      ({ f with timestamp := f.timestamp - 0 } : RecordingFrame) = f := by
    intro f; cases f; simp
  simp [h]

/-- Claim C4 counterexample: a parsed document with version "2.0" is accepted
wholesale by both load paths — neither produces `IncompatibleFormat`, and the
full `Recording` is handed on. -/
theorem load_no_version_gate_cex :
    versionTwoRecording.version = "2.0" ∧
    playRecordingLoad versionTwoRecording = Except.ok versionTwoRecording ∧
    playRecordingLoad versionTwoRecording ≠ Except.error LoadError.incompatibleFormat ∧
    editRecordingLoad versionTwoRecording = Except.ok versionTwoRecording ∧
    editRecordingLoad versionTwoRecording ≠ Except.error LoadError.incompatibleFormat := by
  refine ⟨rfl, rfl, ?_, rfl, ?_⟩ <;> simp [playRecordingLoad, editRecordingLoad]

/-- Claim C4 (amended): the load boundary performs no formatVersion gating at
all — every successfully parsed document is accepted as-is by the player and
the editor, whatever its version string; the only load-time failures are file
read or JSON parse errors, outside the parsed-document stage modelled here. -/
theorem load_accepts_any_version :
    ∀ r : Recording, playRecordingLoad r = Except.ok r ∧ editRecordingLoad r = Except.ok r := by
  intro r
  exact ⟨rfl, rfl⟩

/-- Claim C7 counterexample: the resize request width "10", height "3" is
numeric, so `parseInt(...) || 80` keeps it, and the resulting dimensions are
{10, 3} with width strictly below 20. -/
theorem resize_out_of_range_cex :
    (applyEdits plainRecording ⟨some ⟨"10", "3"⟩, none⟩).1.dimensions = some ⟨10, 3⟩ ∧
    ¬(20 ≤ (10 : Int)) := by
  exact ⟨by decide, by decide⟩

/-- Claim C7 (amended): an edit with a resize request replaces the dimensions
with `parseInt(width) || 80` and `parseInt(height) || 24`: non-numeric values
(NaN, modelled as `none`) fall back per-component to the default {80, 24} and
resize never errors, but any nonzero parsed integer — including values below
the 20×5 floor — is used as-is, so width ≥ 20 / height ≥ 5 is not guaranteed. -/
theorem resize_fallback :
    ∀ (rec : Recording) (w h : String),
      (applyEdits rec ⟨some ⟨w, h⟩, none⟩).1.dimensions =
        some ⟨jsOr (jsParseInt w) 80, jsOr (jsParseInt h) 24⟩ ∧
      (jsParseInt w = none → jsParseInt h = none →
        (applyEdits rec ⟨some ⟨w, h⟩, none⟩).1.dimensions = some ⟨80, 24⟩) ∧
      (applyEdits rec ⟨some ⟨w, h⟩, none⟩).1.frames = rec.frames := by
  intro rec w h
  refine ⟨rfl, ?_, rfl⟩
  intro hw hh
  simp [applyEdits, hw, hh, jsOr]

/-- Witness for the amended C7 theorem: resize("abc", "xyz") yields {80, 24}. -/
theorem resize_fallback_witness :
    (applyEdits plainRecording ⟨some ⟨"abc", "xyz"⟩, none⟩).1.dimensions = some ⟨80, 24⟩ :=
  (resize_fallback plainRecording "abc" "xyz").2.1 (by decide) (by decide)

/-- Claim C3: for every frame with a successor, the scheduled delay equals
`max(minimumDelay, timestamp[i+1] - timestamp[i]) / speed` with
`minimumDelay = 50` ms and the player's positive rate multiplier
`playbackSpeed = 1` (real time). -/
theorem playback_delay_formula :
    ∀ (frames : List RecordingFrame) (i : Nat) (f g : RecordingFrame),
      frames[i]? = some f → frames[i + 1]? = some g →
      frameDelay frames i =
        some (max minimumDelay (g.timestamp - f.timestamp) / playbackSpeed) ∧
      minimumDelay = 50 ∧ 0 < playbackSpeed := by
  intro frames i f g hf hg
  refine ⟨?_, rfl, by decide⟩
  simp [frameDelay, hf, hg, minimumDelay, playbackSpeed]

/-- Sample two-frame list for the delay witness. -/
def delayFrames : List RecordingFrame :=
  [⟨0, "a", FrameType.output⟩, ⟨10, "b", FrameType.output⟩]

/-- Witness for the C3 theorem at a concrete pair of adjacent frames. -/
theorem playback_delay_formula_witness :
    frameDelay delayFrames 0 =
      some (max minimumDelay ((10 : Int) - 0) / playbackSpeed) :=
  (playback_delay_formula delayFrames 0 ⟨0, "a", FrameType.output⟩
    ⟨10, "b", FrameType.output⟩ rfl rfl).1

lemma cumReduction_zero (l : List RecordingFrame) : cumReduction l 0 = 0 := by
  simp [cumReduction]

lemma cumReduction_cons_succ (f g : RecordingFrame) (rest : List RecordingFrame) (j : Nat) :
    cumReduction (f :: g :: rest) (j + 1) =
      gapPenalty (g.timestamp - f.timestamp) + cumReduction (g :: rest) j := by
  simp [cumReduction]

lemma removeDeadTimeGo_getElem :
    ∀ (l : List RecordingFrame) (red : Int) (i : Nat),
      (removeDeadTimeGo l red)[i]? =
        (l[i]?).map (fun f => { f with timestamp := f.timestamp - (red + cumReduction l i) }) := by
  intro l
  induction l with
  | nil => intro red i; simp [removeDeadTimeGo]
  | cons f rest ih =>
    intro red i
    cases rest with
    | nil =>
      cases i with
      | zero => simp [removeDeadTimeGo, cumReduction_zero]
      | succ j => simp [removeDeadTimeGo]
    | cons g rest2 =>
      cases i with
      | zero =>
        simp [removeDeadTimeGo, cumReduction_zero]
      | succ j =>
        have hred : (if g.timestamp - f.timestamp > deadTimeThreshold then
              red + (g.timestamp - f.timestamp - maxPauseDuration)
            else red) = red + gapPenalty (g.timestamp - f.timestamp) := by
          unfold gapPenalty
          split <;> omega
        have hstep :
            (removeDeadTimeGo (f :: g :: rest2) red)[j + 1]? =
              (removeDeadTimeGo (g :: rest2)
                (red + gapPenalty (g.timestamp - f.timestamp)))[j]? := by
          rw [show removeDeadTimeGo (f :: g :: rest2) red =
              { f with timestamp := f.timestamp - red } ::
                removeDeadTimeGo (g :: rest2)
                  (if g.timestamp - f.timestamp > deadTimeThreshold then
                    red + (g.timestamp - f.timestamp - maxPauseDuration)
                  else red) from rfl, hred]
          simp
        rw [hstep, ih (red + gapPenalty (g.timestamp - f.timestamp)) j]
        rw [show ((f :: g :: rest2)[j + 1]? : Option RecordingFrame) = (g :: rest2)[j]? from by simp,
          cumReduction_cons_succ]
        have harith :
            red + gapPenalty (g.timestamp - f.timestamp) + cumReduction (g :: rest2) j =
              red + (gapPenalty (g.timestamp - f.timestamp) + cumReduction (g :: rest2) j) := by
          omega
        rw [harith]

/-- The example of claim C2: frames at 0, 500, 5500 ms. -/
def deadTimeExample : List RecordingFrame :=
  [⟨0, "a", FrameType.output⟩, ⟨500, "b", FrameType.output⟩, ⟨5500, "c", FrameType.output⟩]

/-- Claim C2: dead-time compression reduces each frame's timestamp by the
cumulative sum of `(gap - 1000)` over all earlier adjacent gaps strictly above
the 3000 ms threshold (gaps compound); lists of length at most 1 come back
unchanged; and the frames at 0, 500, 5500 compress to 0, 500, 1500. -/
theorem removeDeadTime_formula :
    (∀ frames : List RecordingFrame,
      frames.Pairwise (fun u v => u.timestamp ≤ v.timestamp) →
      ∀ i : Nat,
        (removeDeadTime frames)[i]? =
          (frames[i]?).map
            (fun f => { f with timestamp := f.timestamp - cumReduction frames i })) ∧
    (∀ frames : List RecordingFrame, frames.length ≤ 1 → removeDeadTime frames = frames) ∧
    removeDeadTime deadTimeExample =
      [⟨0, "a", FrameType.output⟩, ⟨500, "b", FrameType.output⟩,
        ⟨1500, "c", FrameType.output⟩] := by
  refine ⟨?_, ?_, by decide⟩
  · intro frames hsorted i
    by_cases hlen : frames.length ≤ 1
    · match frames with
      | [] =>
        simp [removeDeadTime]
      | [f] =>
        have hone : removeDeadTime [f] = [f] := by simp [removeDeadTime]
        rw [hone]
        cases i with
        | zero => simp [cumReduction_zero]
        | succ j => simp
    · have hgo : removeDeadTime frames = removeDeadTimeGo frames 0 := by
        simp [removeDeadTime, hlen]
      rw [hgo, removeDeadTimeGo_getElem frames 0 i]
      simp
  · intro frames hlen
    simp [removeDeadTime, hlen]

/-- Witness for the C2 theorem: the formula evaluated at index 2 of the
0/500/5500 example, with the sortedness hypothesis discharged concretely. -/
theorem removeDeadTime_formula_witness :
    deadTimeExample.Pairwise (fun u v => u.timestamp ≤ v.timestamp) ∧
    (removeDeadTime deadTimeExample)[2]? =
      (deadTimeExample[2]?).map
        (fun f => { f with timestamp := f.timestamp - cumReduction deadTimeExample 2 }) := by
  refine ⟨by decide, removeDeadTime_formula.1 deadTimeExample (by decide) 2⟩

lemma mem_dropFirstInput {f : RecordingFrame} :
    ∀ {l : List RecordingFrame}, f ∈ dropFirstInput l → f ∈ l := by
  intro l
  induction l with
  | nil => intro h; simp [dropFirstInput] at h
  | cons g rest ih =>
    intro h
    by_cases hg : g.type = FrameType.input
    · simp only [dropFirstInput, hg, if_pos rfl] at h
      exact List.mem_cons_of_mem _ h
    · simp only [dropFirstInput, if_neg hg] at h
      rcases List.mem_cons.mp h with h | h
      · exact h ▸ List.mem_cons_self _ _
      · exact List.mem_cons_of_mem _ (ih h)

lemma mem_removeLastInputFrame {f : RecordingFrame} {l : List RecordingFrame}
    (h : f ∈ removeLastInputFrame l) : f ∈ l := by
  have h1 : f ∈ dropFirstInput l.reverse := by
    simpa [removeLastInputFrame] using h
  have h2 := mem_dropFirstInput h1
  simpa using h2

lemma foldl_processStep_no_marker (l : List RecordingFrame) :
    ∀ acc : List RecordingFrame × List String,
      (∀ f ∈ acc.1, ¬(f.type = FrameType.input ∧ f.content = "[BACKSPACE]")) →
      ∀ f ∈ (l.foldl processStep acc).1,
        ¬(f.type = FrameType.input ∧ f.content = "[BACKSPACE]") := by
  induction l with
  | nil => intro acc hacc; simpa using hacc
  | cons a rest ih =>
    intro acc hacc
    refine ih (processStep acc a) ?_
    intro f hf
    by_cases ht : a.type = FrameType.input
    · by_cases hc : a.content = "[BACKSPACE]"
      · by_cases hb : acc.2 = []
        · simp only [processStep, ht, hc, hb, if_pos rfl] at hf
          exact hacc f hf
        · simp only [processStep, ht, hc, hb, if_pos rfl, if_neg hb] at hf
          exact hacc f (mem_removeLastInputFrame hf)
      · simp only [processStep, ht, if_pos rfl, if_neg hc] at hf
        rcases List.mem_append.mp hf with hf | hf
        · exact hacc f hf
        · have hfa : f = a := by simpa using hf
          intro hcon
          exact hc (hfa ▸ hcon.2)
    · simp only [processStep, if_neg ht] at hf
      rcases List.mem_append.mp hf with hf | hf
      · exact hacc f hf
      · have hfa : f = a := by simpa using hf
        intro hcon
        exact ht (hfa ▸ hcon.1)

lemma removeLastInputFrame_append (xs ys : List RecordingFrame) (m : RecordingFrame)
    (hm : m.type = FrameType.input) (hys : ∀ g ∈ ys, g.type ≠ FrameType.input) :
    removeLastInputFrame (xs ++ m :: ys) = xs ++ ys := by
  have key : ∀ zs : List RecordingFrame, (∀ g ∈ zs, g.type ≠ FrameType.input) →
      dropFirstInput (zs ++ m :: xs.reverse) = zs ++ xs.reverse := by
    intro zs hzs
    induction zs with
    | nil => simp [dropFirstInput, hm]
    | cons z zr ih =>
      have hz : z.type ≠ FrameType.input := hzs z (List.mem_cons_self _ _)
      have ih2 := ih (fun g hg => hzs g (List.mem_cons_of_mem _ hg))
      simp [dropFirstInput, hz, ih2]
  have hrev : (xs ++ m :: ys).reverse = ys.reverse ++ m :: xs.reverse := by
    simp [List.reverse_append]
  have hysrev : ∀ g ∈ ys.reverse, g.type ≠ FrameType.input := by
    intro g hg
    exact hys g (List.mem_reverse.mp hg)
  unfold removeLastInputFrame
  rw [hrev, key ys.reverse hysrev]
  simp

/-- The raw capture stream of the C1 example: keystrokes h, e, l, l, o followed
by two correction markers. -/
def helloRaw : Recording :=
  { version := "1.0", startTime := 0, endTime := none,
    frames := [⟨0, "h", FrameType.input⟩, ⟨1, "e", FrameType.input⟩,
      ⟨2, "l", FrameType.input⟩, ⟨3, "l", FrameType.input⟩, ⟨4, "o", FrameType.input⟩,
      ⟨5, "[BACKSPACE]", FrameType.input⟩, ⟨6, "[BACKSPACE]", FrameType.input⟩],
    terminalInfo := ⟨none, none, none⟩, dimensions := none }

/-- Claim C1: the post-processed session contains zero correction-marker
frames; a marker step pops the most recently appended still-pending input
frame from the result (the last input frame, skipping any trailing output
frames) and is a silent no-op when the pending buffer is empty; and the raw
stream h, e, l, l, o, marker, marker post-processes to the clean input
sequence h, e, l. -/
theorem capture_postprocessor_correct :
    (∀ rec : Recording, ∀ f ∈ (processRecordingForPlayback rec).frames,
      ¬(f.type = FrameType.input ∧ f.content = "[BACKSPACE]")) ∧
    (∀ (acc : List RecordingFrame × List String) (m : RecordingFrame),
      m.type = FrameType.input → m.content = "[BACKSPACE]" →
      (acc.2 = [] → processStep acc m = acc) ∧
      (acc.2 ≠ [] → processStep acc m = (removeLastInputFrame acc.1, acc.2.dropLast))) ∧
    (∀ (xs ys : List RecordingFrame) (m : RecordingFrame),
      m.type = FrameType.input → (∀ g ∈ ys, g.type ≠ FrameType.input) →
      removeLastInputFrame (xs ++ m :: ys) = xs ++ ys) ∧
    (processRecordingForPlayback helloRaw).frames.map (fun f => f.content) =
      ["h", "e", "l"] := by
  refine ⟨?_, ?_, removeLastInputFrame_append, by decide⟩
  · intro rec f hf
    exact foldl_processStep_no_marker rec.frames ([], []) (by simp) f hf
  · intro acc m hm hc
    constructor
    · intro hb
      simp [processStep, hm, hc, hb]
    · intro hb
      simp [processStep, hm, hc, hb]

/-- Witness for the C1 theorem: a marker arriving at the empty state is a
no-op, checked by applying the marker-step part of the theorem concretely. -/
theorem capture_postprocessor_correct_witness :
    processStep ([], []) ⟨0, "[BACKSPACE]", FrameType.input⟩ = ([], []) :=
  (capture_postprocessor_correct.2.1 ([], [])
    ⟨0, "[BACKSPACE]", FrameType.input⟩ rfl rfl).1 rfl

lemma joinContents_append :
    ∀ a b : List RecordingFrame, joinContents (a ++ b) = joinContents a ++ joinContents b := by
  intro a b
  induction a with
  | nil => simp [joinContents, String.empty_append]
  | cons f rest ih => simp [joinContents, ih, String.append_assoc]

lemma joinContents_take_succ (l : List RecordingFrame) (n : Nat) (fr : RecordingFrame)
    (h : l[n]? = some fr) :
    joinContents (l.take (n + 1)) = joinContents (l.take n) ++ fr.content := by
  rw [List.take_succ, h]
  simp [joinContents_append, joinContents, String.append_empty]

lemma frameType_emits (t : FrameType) :
    (t = FrameType.output ∨ t = FrameType.input) := by
  cases t
  · exact Or.inl rfl
  · exact Or.inr rfl

lemma runPlay_spec (frames : List RecordingFrame) :
    ∀ n : Nat, n ≤ frames.length →
      (runPlay frames n).currentFrame = n ∧
      (runPlay frames n).outputContent = joinContents (frames.take n) := by
  intro n
  induction n with
  | zero => intro _; exact ⟨rfl, rfl⟩
  | succ k ih =>
    intro hk
    obtain ⟨hcf, hout⟩ := ih (Nat.le_of_succ_le hk)
    have hklt : k < frames.length := hk
    have hfr : frames[k]? = some frames[k] := List.getElem?_eq_getElem hklt
    have hrun : runPlay frames (k + 1) = playRecordingStep frames (runPlay frames k) := rfl
    rw [hrun]
    constructor
    · simp [playRecordingStep, hcf, hfr]
    · simp [playRecordingStep, hcf, hfr, hout, frameType_emits (frames[k]).type,
        joinContents_take_succ frames k frames[k] hfr]

lemma rebuild_foldl (l : List RecordingFrame) :
    ∀ s : String,
      l.foldl
        (fun acc frame =>
          if frame.type = FrameType.output ∨ frame.type = FrameType.input then
            acc ++ frame.content
          else acc) s = s ++ joinContents l := by
  induction l with
  | nil => intro s; simp [joinContents, String.append_empty]
  | cons f rest ih =>
    intro s
    simp only [List.foldl_cons, frameType_emits f.type, if_pos]
    rw [ih (s ++ f.content)]
    simp [joinContents, String.append_assoc]

/-- Claim C8: after emitting frames `0..k` the play loop's accumulator is the
concatenation, in order, of the content of frames `0..k`; and the accumulator
rebuilt by the progress-bar seek for the same target index is that same
concatenation. -/
theorem playback_accumulator_concat :
    ∀ (frames : List RecordingFrame) (k : Nat), k < frames.length →
      (runPlay frames (k + 1)).outputContent = joinContents (frames.take (k + 1)) ∧
      rebuildOutputUpTo frames (k + 1) = joinContents (frames.take (k + 1)) := by
  intro frames k hk
  constructor
  · exact (runPlay_spec frames (k + 1) hk).2
  · unfold rebuildOutputUpTo
    rw [rebuild_foldl (frames.take (k + 1)) ""]
    simp [String.empty_append]

/-- Witness for the C8 theorem at a concrete one-frame session. -/
theorem playback_accumulator_concat_witness :
    (runPlay delayFrames 1).outputContent = joinContents (delayFrames.take 1) ∧
    rebuildOutputUpTo delayFrames 1 = joinContents (delayFrames.take 1) :=
  playback_accumulator_concat delayFrames 0 (by decide)

lemma applyEdits_trim_nil (recording : Recording) (s e : Option Int)
    (h : trimFilter (jsOr s 0) (jsOr e maxSafeInteger) recording.frames = []) :
    (applyEdits recording (trimEdit s e)).1 = { recording with frames := [] } ∧
    (applyEdits recording (trimEdit s e)).2 = recording := by
  simp only [applyEdits, trimEdit, h]
  constructor <;> trivial

lemma applyEdits_trim_cons (recording : Recording) (s e : Option Int)
    (f0 : RecordingFrame) (rest : List RecordingFrame)
    (h : trimFilter (jsOr s 0) (jsOr e maxSafeInteger) recording.frames = f0 :: rest) :
    (applyEdits recording (trimEdit s e)).1 =
      { recording with
          frames := rebase f0.timestamp (f0 :: rest),
          startTime := recording.startTime + jsOr s 0,
          endTime :=
            match recording.endTime with
            | some e0 =>
                if e0 ≠ 0 then
                  some (min e0 (recording.startTime + jsOr e maxSafeInteger))
                else some e0
            | none => none } ∧
    (applyEdits recording (trimEdit s e)).2 =
      { recording with
          frames := recording.frames.map (fun frame =>
            if jsOr s 0 ≤ frame.timestamp ∧ frame.timestamp ≤ jsOr e maxSafeInteger then
              { frame with timestamp := frame.timestamp - f0.timestamp }
            else frame) } := by
  simp only [applyEdits, trimEdit, h]
  constructor <;> trivial

/-- Claim C6 (amended): for a trim request with nonzero endMs, `applyEdits`
retains exactly the frames with startMs ≤ timestamp ≤ endMs, re-bases the
retained timestamps by the first retained frame's timestamp so the sequence
starts at 0, shifts startTime forward by startMs, clamps endTime to
min(endTime, startTime + endMs) when endTime is present and nonzero, and
returns a session with zero frames when nothing falls in range.  (An endMs of
0 — like a non-numeric one — is instead treated as unbounded; see the
counterexample and claim C10.) -/
theorem trim_semantics :
    ∀ (rec : Recording) (a b : Int), b ≠ 0 →
      (trimFilter a b rec.frames = [] →
        (applyEdits rec (trimEdit (some a) (some b))).1.frames = []) ∧
      (∀ (f0 : RecordingFrame) (rest : List RecordingFrame),
        trimFilter a b rec.frames = f0 :: rest →
        (applyEdits rec (trimEdit (some a) (some b))).1.frames =
          rebase f0.timestamp (f0 :: rest) ∧
        ((applyEdits rec (trimEdit (some a) (some b))).1.frames)[0]? =
          some { f0 with timestamp := 0 } ∧
        (applyEdits rec (trimEdit (some a) (some b))).1.startTime = rec.startTime + a ∧
        (∀ e0 : Int, rec.endTime = some e0 → e0 ≠ 0 →
          (applyEdits rec (trimEdit (some a) (some b))).1.endTime =
            some (min e0 (rec.startTime + b)))) := by
  intro rec a b hb
  have hs : jsOr (some a) 0 = a := jsOr_self a
  have he : jsOr (some b) maxSafeInteger = b := jsOr_of_ne maxSafeInteger hb
  constructor
  · intro hnil
    have h0 : trimFilter (jsOr (some a) 0) (jsOr (some b) maxSafeInteger) rec.frames = [] := by
      rw [hs, he]; exact hnil
    rw [(applyEdits_trim_nil rec (some a) (some b) h0).1]
  · intro f0 rest hcons
    have h0 : trimFilter (jsOr (some a) 0) (jsOr (some b) maxSafeInteger) rec.frames =
        f0 :: rest := by
      rw [hs, he]; exact hcons
    have hfst := (applyEdits_trim_cons rec (some a) (some b) f0 rest h0).1
    rw [hfst]
    refine ⟨rfl, ?_, by rw [hs], ?_⟩
    · simp [rebase]
    · intro e0 hend he0
      simp only [hend, he]
      simp [he0]

/-- One-frame recording with a frame at t = 100 ms. -/
def singleFrameRecording : Recording :=
  ⟨"1.0", 0, none, [⟨100, "x", FrameType.output⟩], ⟨none, none, none⟩, none⟩

/-- Witness for the amended C6 theorem: trimming the t = 100 recording to
[0, 1000] keeps the frame and re-bases it to t = 0. -/
theorem trim_semantics_witness :
    (applyEdits singleFrameRecording (trimEdit (some 0) (some 1000))).1.frames =
      rebase 100 [⟨100, "x", FrameType.output⟩] :=
  ((trim_semantics singleFrameRecording 0 1000 (by decide)).2
    ⟨100, "x", FrameType.output⟩ [] (by decide)).1

/-- Claim C6 counterexample: trimming to [0, 0] should, per the claim, retain
only frames with timestamp ≤ 0 — nothing here — yet the code treats endMs = 0
as unbounded and keeps the t = 100 frame. -/
theorem trim_endzero_cex :
    (applyEdits singleFrameRecording (trimEdit (some 0) (some 0))).1.frames =
      [⟨0, "x", FrameType.output⟩] ∧
    trimFilter 0 0 singleFrameRecording.frames = [] := by
  exact ⟨by decide, by decide⟩

/-- Claim C10: a trim whose endMs is 0 or NaN uses Number.MAX_SAFE_INTEGER as
the upper bound, so (for timestamps in the safe-integer range) exactly the
frames with timestamp ≥ startMs are retained (then re-based); a NaN startMs is
treated as 0. -/
theorem trim_unbounded_end :
    ∀ (rec : Recording) (s bv : Option Int),
      bv = none ∨ bv = some 0 →
      (∀ f ∈ rec.frames, f.timestamp ≤ maxSafeInteger) →
      ((applyEdits rec (trimEdit s bv)).1.frames =
        (match rec.frames.filter (fun f => decide (jsOr s 0 ≤ f.timestamp)) with
          | [] => []
          | f0 :: rest => rebase f0.timestamp (f0 :: rest))) ∧
      (s = none → jsOr s 0 = 0) := by
  intro rec s bv hbv hts
  have hbe : jsOr bv maxSafeInteger = maxSafeInteger := by
    rcases hbv with h | h <;> simp [h, jsOr]
  have hfil : trimFilter (jsOr s 0) (jsOr bv maxSafeInteger) rec.frames =
      rec.frames.filter (fun f => decide (jsOr s 0 ≤ f.timestamp)) := by
    rw [hbe]
    unfold trimFilter
    refine List.filter_congr ?_
    intro f hf
    have hle : f.timestamp ≤ maxSafeInteger := hts f hf
    simp [hle]
  refine ⟨?_, fun h => by simp [h, jsOr]⟩
  cases hk : rec.frames.filter (fun f => decide (jsOr s 0 ≤ f.timestamp)) with
  | nil =>
    have h0 : trimFilter (jsOr s 0) (jsOr bv maxSafeInteger) rec.frames = [] := by
      rw [hfil, hk]
    rw [(applyEdits_trim_nil rec s bv h0).1]
  | cons f0 rest =>
    have h0 : trimFilter (jsOr s 0) (jsOr bv maxSafeInteger) rec.frames = f0 :: rest := by
      rw [hfil, hk]
    rw [(applyEdits_trim_cons rec s bv f0 rest h0).1]

/-- Witness for the C10 theorem: trimming the t = 100 recording with NaN
bounds keeps its frame (re-based by its own timestamp). -/
theorem trim_unbounded_end_witness :
    (applyEdits singleFrameRecording (trimEdit none none)).1.frames =
      (match singleFrameRecording.frames.filter
          (fun f => decide (jsOr none 0 ≤ f.timestamp)) with
        | [] => []
        | f0 :: rest => rebase f0.timestamp (f0 :: rest)) :=
  (trim_unbounded_end singleFrameRecording none none (Or.inl rfl) (by decide)).1

/-- Recording whose frames sit at t = 100 and t = 200 ms. -/
def mutationRecording : Recording :=
  ⟨"1.0", 0, none,
    [⟨100, "a", FrameType.input⟩, ⟨200, "b", FrameType.output⟩],
    ⟨none, none, none⟩, none⟩

/-- Claim C5 (code bug): trimming to [100, 1000] re-bases by mutating the very
frame objects of the caller's recording (the filter is taken over
`recording.frames`, so the clone is bypassed): after the call the input's
frames read t = 0 and t = 100 instead of the original 100 and 200, so the
input `Recording` is not left unchanged. -/
theorem applyEdits_mutates_input :
    (applyEdits mutationRecording (trimEdit (some 100) (some 1000))).2.frames =
      [⟨0, "a", FrameType.input⟩, ⟨100, "b", FrameType.output⟩] ∧
    (applyEdits mutationRecording (trimEdit (some 100) (some 1000))).2 ≠
      mutationRecording := by
  exact ⟨by decide, by decide⟩

lemma mem_trimFilter {f : RecordingFrame} {s e : Int} {l : List RecordingFrame} :
    f ∈ trimFilter s e l ↔ f ∈ l ∧ s ≤ f.timestamp ∧ f.timestamp ≤ e := by
  simp [trimFilter, List.mem_filter, and_assoc]

/-- Claim C9 (amended): for non-negative bounds 0 ≤ a ≤ b and a recording with
non-negative, non-decreasing timestamps, trimming to [a, b] and then trimming
the result to [0, b − a] yields the same frame list as trimming to [a, b]
alone.  (For a negative lower bound the claim fails, because an endMs of 0
makes the first trim unbounded while the second is bounded by −a; see the
counterexample.) -/
theorem trim_idempotent :
    ∀ (rec : Recording) (a b : Int), 0 ≤ a → a ≤ b →
      rec.frames.Pairwise (fun u v => u.timestamp ≤ v.timestamp) →
      (∀ f ∈ rec.frames, 0 ≤ f.timestamp) →
      (applyEdits ((applyEdits rec (trimEdit (some a) (some b))).1)
          (trimEdit (some 0) (some (b - a)))).1.frames =
        (applyEdits rec (trimEdit (some a) (some b))).1.frames := by
  intro rec a b ha hab hsorted hnonneg
  have hM0 : (0 : Int) ≤ maxSafeInteger := by decide
  cases hk : trimFilter (jsOr (some a) 0) (jsOr (some b) maxSafeInteger) rec.frames with
  | nil =>
    rw [(applyEdits_trim_nil rec (some a) (some b) hk).1]
    have hk2 : trimFilter (jsOr (some 0) 0) (jsOr (some (b - a)) maxSafeInteger)
        ({ rec with frames := ([] : List RecordingFrame) } : Recording).frames = [] := by
      simp [trimFilter]
    rw [(applyEdits_trim_nil _ (some 0) (some (b - a)) hk2).1]
  | cons f0 rest =>
    have hs1 : jsOr (some a) 0 = a := jsOr_self a
    rw [(applyEdits_trim_cons rec (some a) (some b) f0 rest hk).1]
    have hmem : ∀ f ∈ (f0 :: rest),
        f ∈ rec.frames ∧ a ≤ f.timestamp ∧ f.timestamp ≤ jsOr (some b) maxSafeInteger := by
      intro f hf
      rw [← hk] at hf
      have h := mem_trimFilter.mp hf
      rw [hs1] at h
      exact h
    have hpw : (f0 :: rest).Pairwise (fun u v => u.timestamp ≤ v.timestamp) := by
      rw [← hk]
      exact hsorted.filter _
    have hf0min : ∀ f ∈ (f0 :: rest), f0.timestamp ≤ f.timestamp := by
      intro f hf
      rcases List.mem_cons.mp hf with rfl | hf2
      · exact le_rfl
      · exact (List.pairwise_cons.mp hpw).1 f hf2
    have hf0 := hmem f0 (List.mem_cons_self _ _)
    have hall : ∀ f ∈ (f0 :: rest),
        (0 : Int) ≤ f.timestamp - f0.timestamp ∧
        f.timestamp - f0.timestamp ≤ jsOr (some (b - a)) maxSafeInteger := by
      intro f hf
      have h1 := hmem f hf
      have h2 := hf0min f hf
      refine ⟨by omega, ?_⟩
      by_cases hba : b - a = 0
      · have hj : jsOr (some (b - a)) maxSafeInteger = maxSafeInteger := by
          simp [jsOr, hba]
        rw [hj]
        by_cases hb : b = 0
        · have he1 : jsOr (some b) maxSafeInteger = maxSafeInteger := by
            simp [jsOr, hb]
          have hfle : f.timestamp ≤ maxSafeInteger := by
            rw [he1] at h1
            exact h1.2.2
          have h0f0 : 0 ≤ f0.timestamp := hnonneg f0 hf0.1
          omega
        · have he1 : jsOr (some b) maxSafeInteger = b := jsOr_of_ne maxSafeInteger hb
          have hfle : f.timestamp ≤ b := by
            rw [he1] at h1
            exact h1.2.2
          have haf0 : a ≤ f0.timestamp := hf0.2.1
          omega
      · have hj : jsOr (some (b - a)) maxSafeInteger = b - a :=
          jsOr_of_ne maxSafeInteger hba
        rw [hj]
        have hb : b ≠ 0 := by
          intro h
          exact hba (by omega)
        have he1 : jsOr (some b) maxSafeInteger = b := jsOr_of_ne maxSafeInteger hb
        have hfle : f.timestamp ≤ b := by
          rw [he1] at h1
          exact h1.2.2
        have haf0 : a ≤ f0.timestamp := hf0.2.1
        omega
    have hkeep : trimFilter (jsOr (some 0) 0) (jsOr (some (b - a)) maxSafeInteger)
        (rebase f0.timestamp (f0 :: rest)) = rebase f0.timestamp (f0 :: rest) := by
      unfold trimFilter
      rw [List.filter_eq_self]
      intro g hg
      rcases List.mem_map.mp hg with ⟨f, hfmem, rfl⟩
      have h := hall f hfmem
      simp only [decide_eq_true_eq]
      have hz : jsOr (some 0) 0 = (0 : Int) := by simp [jsOr]
      exact ⟨by rw [hz]; exact h.1, h.2⟩
    have hrebase : rebase f0.timestamp (f0 :: rest) =
        { f0 with timestamp := f0.timestamp - f0.timestamp } :: rebase f0.timestamp rest := rfl
    have hcons2 : trimFilter (jsOr (some 0) 0) (jsOr (some (b - a)) maxSafeInteger)
        (rebase f0.timestamp (f0 :: rest)) =
          { f0 with timestamp := f0.timestamp - f0.timestamp } :: rebase f0.timestamp rest := by
      rw [hkeep, hrebase]
    rw [(applyEdits_trim_cons _ (some 0) (some (b - a)) _ _ hcons2).1]
    show rebase ({ f0 with timestamp := f0.timestamp - f0.timestamp } : RecordingFrame).timestamp
        ({ f0 with timestamp := f0.timestamp - f0.timestamp } :: rebase f0.timestamp rest) =
      rebase f0.timestamp (f0 :: rest)
    have hts0 : ({ f0 with timestamp := f0.timestamp - f0.timestamp } :
        RecordingFrame).timestamp = 0 := by
      simp
    rw [hts0, ← hrebase, rebase_zero]

/-- Recording whose frames sit at t = 0 and t = 100 ms, sorted and non-negative. -/
def twoFrameRecording : Recording :=
  ⟨"1.0", 0, none,
    [⟨0, "x", FrameType.output⟩, ⟨100, "y", FrameType.output⟩],
    ⟨none, none, none⟩, none⟩

/-- Witness for the amended C9 theorem on the two-frame recording with
bounds [0, 1000]. -/
theorem trim_idempotent_witness :
    (applyEdits ((applyEdits twoFrameRecording (trimEdit (some 0) (some 1000))).1)
        (trimEdit (some 0) (some (1000 - 0)))).1.frames =
      (applyEdits twoFrameRecording (trimEdit (some 0) (some 1000))).1.frames :=
  trim_idempotent twoFrameRecording 0 1000 (by decide) (by decide) (by decide) (by decide)

/-- Claim C9 counterexample: with sorted non-negative frames at 0 and 100 and
bounds a = −1 ≤ b = 0, the first trim is unbounded above (endMs 0 is falsy)
and keeps both frames, while the re-trim to [0, b − a] = [0, 1] drops the
t = 100 frame, so the two frame lists differ. -/
theorem trim_idempotent_cex :
    twoFrameRecording.frames.Pairwise (fun u v => u.timestamp ≤ v.timestamp) ∧
    (∀ f ∈ twoFrameRecording.frames, 0 ≤ f.timestamp) ∧
    ((-1 : Int) ≤ 0) ∧
    (applyEdits ((applyEdits twoFrameRecording (trimEdit (some (-1)) (some 0))).1)
        (trimEdit (some 0) (some (0 - (-1))))).1.frames ≠
      (applyEdits twoFrameRecording (trimEdit (some (-1)) (some 0))).1.frames := by
  refine ⟨by decide, by decide, by decide, by decide⟩

end PureCinema
